import Mathlib

/-!
Shallow embedding of `simple_history` (django-simple-history fork, version
1.5.0-ebd.1): the dynamic historical-model construction in
`simple_history/models.py` and the registration entry point in
`simple_history/__init__.py`.

The host framework (Django's ORM) is external: database queries, signal
dispatch and model metaclass behaviour appear as parameters of the embedded
operations (e.g. the result of `through_model.objects.filter(...)` is passed
in as a list).  Everything the library itself computes — field copying and
transformation, the extra bookkeeping fields, the meta options, the four
signal handlers, record creation, the m2m reconciliation and the
registration guard — is translated from source.
-/

namespace SimpleHistory

/-- Kinds of ORM model fields distinguished by the history machinery
(`models.py`: `copy_fields`, `transform_field`, `convert_auto_field`). -/
inductive FieldKind where
  | AutoField
  | IntegerField
  | CharField
  | TextField
  | DateTimeField
  | FileField
  | OrderWrt
  | ForeignKey
  | OneToOneField
  | OtherField
  deriving DecidableEq, Repr

/-- The `on_delete` behaviours used in `models.py`. -/
inductive OnDelete where
  | CASCADE
  | DO_NOTHING
  | SET_NULL
  deriving DecidableEq, Repr

/-- A Django model field, restricted to the attributes `models.py` reads or
writes: `name`, `attname`, the class (kind), `primary_key`, `unique` (the
private `_unique` flag), `db_index`, `null`, `blank`, `db_constraint`,
`serialize`, `auto_now`, `auto_now_add`, `max_length`, `on_delete`. -/
structure Field where
  name : String
  attname : String
  kind : FieldKind
  primary_key : Bool
  unique : Bool
  db_index : Bool
  null : Bool
  blank : Bool
  db_constraint : Bool
  serialize : Bool
  auto_now : Bool
  auto_now_add : Bool
  max_length : Option Nat
  on_delete : OnDelete
  deriving DecidableEq, Repr

/-- `models.py` `convert_auto_field`: an `AutoField` copied onto the
historical model becomes a `TextField` under the mongodb engine and an
`IntegerField` otherwise.  The engine string comes from the host settings. -/
def convert_auto_field (engine : String) : FieldKind :=
  if engine = "django_mongodb_engine" then FieldKind.TextField
  else FieldKind.IntegerField

/-- `models.py` `transform_field`: rename to `attname`, demote `AutoField`
and `FileField`, clear `auto_now`/`auto_now_add`, and turn primary-key or
unique fields into indexed non-unique ones. -/
def transform_field (engine : String) (f : Field) : Field :=
  let f := { f with name := f.attname }
  let f :=
    if f.kind = FieldKind.AutoField then
      { f with kind := convert_auto_field engine }
    else if f.kind = FieldKind.FileField then
      { f with kind := FieldKind.TextField }
    else f
  let f := { f with auto_now := false, auto_now_add := false }
  if f.primary_key || f.unique then
    { f with primary_key := false, unique := false, db_index := true,
             serialize := true }
  else f

/-- Whether the `isinstance(field, models.ForeignKey)` test in `copy_fields`
succeeds (a `OneToOneField` is a `ForeignKey` subclass in Django). -/
def Field.isForeignKey (f : Field) : Bool :=
  f.kind = FieldKind.ForeignKey || f.kind = FieldKind.OneToOneField

/-- `models.py` `copy_fields`, per field: an `OrderWrt` proxy becomes a plain
`IntegerField`; a foreign key is rebuilt as a loosely-constrained reference
(`db_constraint=False`, `null=True`, `blank=True`, `primary_key=False`,
`db_index=True`, `serialize=True`, `unique=False`, `on_delete=DO_NOTHING`,
and `FieldType` is `ForeignKey` when the original was one-to-one); any other
field goes through `transform_field`. -/
def copy_one_field (engine : String) (f : Field) : Field :=
  let f :=
    if f.kind = FieldKind.OrderWrt then { f with kind := FieldKind.IntegerField }
    else f
  if f.isForeignKey then
    { name := f.name
      attname := f.attname
      kind := if f.kind = FieldKind.OneToOneField then FieldKind.ForeignKey
              else f.kind
      primary_key := false
      unique := false
      db_index := true
      null := true
      blank := true
      db_constraint := false
      serialize := true
      auto_now := false
      auto_now_add := false
      max_length := f.max_length
      on_delete := OnDelete.DO_NOTHING }
  else
    transform_field engine f

/-- `models.py` `copy_fields`: the dictionary mapping (new) field name to the
copied field, one entry per field of the tracked model. -/
def copy_fields (engine : String) (fields : List Field) : List (String × Field) :=
  fields.map (fun f =>
    let f := copy_one_field engine f
    (f.name, f))

/-- The `history_id` extra field: `models.AutoField(primary_key=True)`. -/
def history_id_field : Field :=
  { name := "history_id", attname := "history_id", kind := FieldKind.AutoField
    primary_key := true, unique := false, db_index := false, null := false
    blank := false, db_constraint := true, serialize := true, auto_now := false
    auto_now_add := false, max_length := none, on_delete := OnDelete.CASCADE }

/-- The `history_date` extra field: `models.DateTimeField()`. -/
def history_date_field : Field :=
  { name := "history_date", attname := "history_date"
    kind := FieldKind.DateTimeField
    primary_key := false, unique := false, db_index := false, null := false
    blank := false, db_constraint := true, serialize := true, auto_now := false
    auto_now_add := false, max_length := none, on_delete := OnDelete.CASCADE }

/-- The `history_user` extra field:
`models.ForeignKey(user_model, null=True, on_delete=models.SET_NULL, ...)`. -/
def history_user_field : Field :=
  { name := "history_user", attname := "history_user_id"
    kind := FieldKind.ForeignKey
    primary_key := false, unique := false, db_index := true, null := true
    blank := false, db_constraint := true, serialize := true, auto_now := false
    auto_now_add := false, max_length := none, on_delete := OnDelete.SET_NULL }

/-- The `history_type` extra field:
`models.CharField(max_length=1, choices=(('+', ...), ('~', ...), ('-', ...)))`. -/
def history_type_field : Field :=
  { name := "history_type", attname := "history_type", kind := FieldKind.CharField
    primary_key := false, unique := false, db_index := false, null := false
    blank := false, db_constraint := true, serialize := true, auto_now := false
    auto_now_add := false, max_length := some 1, on_delete := OnDelete.CASCADE }

/-- The `choices` of the `history_type` field. -/
def history_type_choices : List (Char × String) :=
  [('+', "Created"), ('~', "Changed"), ('-', "Deleted")]

/-- `models.py` `get_extra_fields`, restricted to the entries that are model
fields (database columns).  The remaining dictionary entries —
`history_object` (a `HistoricalObjectDescriptor`), `instance` (a property
around `get_instance`), `instance_type`, `revert_url` and `__str__` — are not
fields; `get_instance` and the descriptor are modelled separately below. -/
def get_extra_fields : List (String × Field) :=
  [("history_id", history_id_field),
   ("history_date", history_date_field),
   ("history_user", history_user_field),
   ("history_type", history_type_field)]

/-- The field dictionary of the historical model built by
`create_history_model`: `attrs.update(fields)` then
`attrs.update(self.get_extra_fields(model, fields))`. -/
def history_model_fields (engine : String) (model_fields : List Field) :
    List (String × Field) :=
  copy_fields engine model_fields ++ get_extra_fields

/-- The Meta options of the historical model returned by
`get_meta_options`. -/
structure MetaOptions where
  ordering : List String
  get_latest_by : String
  verbose_name : String
  deriving DecidableEq, Repr

/-- `models.py` `get_meta_options`: ordering newest-first by
`('-history_date', '-history_id')`, `get_latest_by = 'history_date'`, and a
verbose name defaulting to `'historical ' + model verbose name`. -/
def get_meta_options (user_set_verbose_name : Option String)
    (model_verbose_name : String) : MetaOptions :=
  { ordering := ["-history_date", "-history_id"]
    get_latest_by := "history_date"
    verbose_name :=
      match user_set_verbose_name with
      | some n => n
      | none => "historical " ++ model_verbose_name }

/-! ## Instances, historical records and the history table

`V` is the type of field values.  A tracked model instance exposes, for the
purposes of `models.py`: its primary key (Django instance equality compares
primary keys of same-model instances), its `_meta.fields`, `getattr` by
column name (`values`), its `_meta.many_to_many` through models (identified
by a `Nat` tag), the `skip_history_when_saving` marker, and the optional
`_history_date` / `_history_user` attributes (an absent attribute is `none`;
`_history_user` may be present and hold no user, hence `Option (Option Nat)`).
Timestamps are modelled as naturals and users by their ids. -/

/-- A tracked model instance as seen by the history machinery. -/
structure Instance (V : Type) where
  pk : Nat
  fields : List Field
  values : String → V
  many_to_many : List Nat
  skip_history_when_saving : Bool
  history_date_attr : Option Nat
  history_user_attr : Option (Option Nat)

/-- One row of the historical table: the extra bookkeeping fields plus the
copied values of the tracked model's fields, keyed by `attname`. -/
structure HistoricalRecord (V : Type) where
  history_id : Nat
  history_date : Nat
  history_user : Option Nat
  history_type : Char
  attrs : List (String × V)

/-- The historical table: its rows in insertion order, and the next value of
the auto-incrementing `history_id` primary key. -/
structure HistoryTable (V : Type) where
  rows : List (HistoricalRecord V)
  next_id : Nat

/-- `models.py` `HistoricalRecords.get_history_user`: the instance's
`_history_user` if the attribute exists, else the authenticated user of the
thread-local request (`threadUser`, `none` when there is no request or the
user is not authenticated). -/
def get_history_user {V : Type} (inst : Instance V) (threadUser : Option Nat) :
    Option Nat :=
  match inst.history_user_attr with
  | some u => u
  | none => threadUser

/-- The row inserted by `create_historical_record` for `inst`, when the
auto-increment counter stands at `i`:
`manager.create(history_date=..., history_type=..., history_user=..., **attrs)`
with `attrs[field.attname] = getattr(instance, field.attname)` for each field
of `instance._meta.fields`. -/
def mk_record {V : Type} (inst : Instance V) (history_type : Char)
    (clock : Nat) (threadUser : Option Nat) (i : Nat) : HistoricalRecord V :=
  { history_id := i
    history_date := inst.history_date_attr.getD clock
    history_user := get_history_user inst threadUser
    history_type := history_type
    attrs := inst.fields.map (fun f => (f.attname, inst.values f.attname)) }

/-- `models.py` `HistoricalRecords.create_historical_record`: inserts one new
row into the historical table.  `clock` is the host's `now()`. -/
def create_historical_record {V : Type} (inst : Instance V)
    (history_type : Char) (clock : Nat) (threadUser : Option Nat)
    (t : HistoryTable V) : HistoryTable V :=
  { rows := t.rows ++ [mk_record inst history_type clock threadUser t.next_id]
    next_id := t.next_id + 1 }

/-- `models.py` `HistoricalRecords.post_save`:
skip when the save is an update and the instance carries
`skip_history_when_saving`; skip raw (fixture-loading) saves; otherwise
record with type `created and '+' or '~'`. -/
def post_save {V : Type} (inst : Instance V) (created raw : Bool)
    (clock : Nat) (threadUser : Option Nat) (t : HistoryTable V) :
    HistoryTable V :=
  if !created && inst.skip_history_when_saving then t
  else if raw then t
  else create_historical_record inst (if created then '+' else '~') clock
    threadUser t

/-- `models.py` `HistoricalRecords.post_delete`: record a `'-'` row. -/
def post_delete {V : Type} (inst : Instance V) (clock : Nat)
    (threadUser : Option Nat) (t : HistoryTable V) : HistoryTable V :=
  create_historical_record inst '-' clock threadUser t

/-- One m2m field's worth of host query results for
`HistoricalRecords.pre_delete`: whether the through model is registered
(`hasattr(through_model._meta, 'simple_history_manager_attribute')`), the
through rows matching the deleted instance, and the related objects
(`m2m_field.value_from_object(instance)`). -/
structure PreDeleteFieldData (V : Type) where
  registered : Bool
  items : List (Instance V)
  related : List (Instance V)

/-- `models.py` `HistoricalRecords.pre_delete`: for each registered m2m
field, a `'-'` record for every through row and a `'~'` record for every
related object. -/
def pre_delete {V : Type} (m2m : List (PreDeleteFieldData V)) (clock : Nat)
    (threadUser : Option Nat) (t : HistoryTable V) : HistoryTable V :=
  m2m.foldl (fun acc d =>
    if d.registered then
      let acc := d.items.foldl
        (fun a item => create_historical_record item '-' clock threadUser a) acc
      d.related.foldl
        (fun a rel => create_historical_record rel '~' clock threadUser a) acc
    else acc) t

/-! ## The m2m_changed handler -/

/-- The m2m actions `HistoricalRecords.m2m_changed` reacts to. -/
inductive M2MAction where
  | post_add
  | pre_remove
  | pre_clear
  | other
  deriving DecidableEq, Repr

/-- A row of the through model as `m2m_changed` uses it: the row itself (as a
saveable instance) and `getattr(item, target_field_name)`, the instance on
the other side of the relationship. -/
structure ThroughItem (V : Type) where
  item : Instance V
  target : Instance V

/-- `models.py` `has_m2m_field`: whether some m2m field of `inst`'s model
goes through the given through model. -/
def has_m2m_field {V : Type} (inst : Instance V) (through : Nat) : Bool :=
  inst.many_to_many.any (fun t => t = through)

/-- The `items` queryset of `m2m_changed`:
`sender.objects.filter(source=instance)` (passed in as `rows`, a host query
result), narrowed by `pk_set` when that kwarg is truthy (neither `None` nor
empty). -/
def filter_items {V : Type} (rows : List (ThroughItem V))
    (pk_set : Option (List Nat)) : List (ThroughItem V) :=
  match pk_set with
  | none => rows
  | some pks => if pks.isEmpty then rows
                else rows.filter (fun r => pks.contains r.target.pk)

/-- Per-source-instance state of the m2m machinery: the historical table and
the `__pre_clear_items` attribute stashed on the source instance between a
`pre_clear` and the following `post_add`. -/
structure M2MState (V : Type) where
  table : HistoryTable V
  pre_clear_items : Option (List (ThroughItem V))

/-- `models.py` `HistoricalRecords.m2m_changed`, for one source instance.
The first loop records `'+'` (post_add, skipping items marked
`skip_history_when_saving`), `'-'` (pre_remove, pre_clear) for each item of
the filtered queryset.  `pre_clear` then stashes the items; `post_add` after
a stash reconciles: a `'~'` record for each stashed item whose target has the
m2m field and matches no current item (Django instance equality: same pk),
and for each current item whose target has the m2m field and matches no
stashed item; then the stash is deleted. -/
def m2m_changed {V : Type} (through : Nat) (action : M2MAction)
    (rows : List (ThroughItem V)) (pk_set : Option (List Nat)) (clock : Nat)
    (threadUser : Option Nat) (s : M2MState V) : M2MState V :=
  let items := filter_items rows pk_set
  let t := items.foldl (fun acc it =>
    match action with
    | M2MAction.post_add =>
        if it.item.skip_history_when_saving then acc
        else create_historical_record it.item '+' clock threadUser acc
    | M2MAction.pre_remove =>
        create_historical_record it.item '-' clock threadUser acc
    | M2MAction.pre_clear =>
        create_historical_record it.item '-' clock threadUser acc
    | M2MAction.other => acc) s.table
  match action with
  | M2MAction.pre_clear => { table := t, pre_clear_items := some items }
  | M2MAction.post_add =>
      match s.pre_clear_items with
      | none => { table := t, pre_clear_items := none }
      | some other_items =>
          let t := other_items.foldl (fun acc it =>
            if has_m2m_field it.target through &&
                (items.filter (fun i => it.target.pk = i.target.pk)).isEmpty
            then create_historical_record it.target '~' clock threadUser acc
            else acc) t
          let t := items.foldl (fun acc it =>
            if has_m2m_field it.target through &&
                (other_items.filter (fun i => it.target.pk = i.target.pk)).isEmpty
            then create_historical_record it.target '~' clock threadUser acc
            else acc) t
          { table := t, pre_clear_items := none }
  | _ => { table := t, pre_clear_items := s.pre_clear_items }

/-! ## Extra methods, reconstruction, registration -/

/-- `models.py` `add_extra_methods.save_without_historical_record`: set the
skip marker, call `self.save(...)` (which fires `post_save` unless the save
raises), and remove the marker in a `finally` block.  Returns the instance's
final marker state and the table.  `saveRaises` models `self.save` raising
before the post-save signal fires. -/
def save_without_historical_record {V : Type} (inst : Instance V)
    (created raw saveRaises : Bool) (clock : Nat) (threadUser : Option Nat)
    (t : HistoryTable V) : Instance V × HistoryTable V :=
  let inst := { inst with skip_history_when_saving := true }
  let t := if saveRaises then t else post_save inst created raw clock threadUser t
  ({ inst with skip_history_when_saving := false }, t)

/-- `models.py` `get_extra_fields.get_instance` (the `instance` property):
`model(**{field.attname: getattr(self, field.attname) for field in
fields.values()})` — the reconstructed live object as a list of
keyword arguments, one per copied field, read off the historical record. -/
def get_instance {V : Type} (copied : List (String × Field))
    (r : HistoricalRecord V) : List (String × Option V) :=
  copied.map (fun p => (p.2.attname, r.attrs.lookup p.2.attname))

/-- `models.py` `HistoricalObjectDescriptor.__get__`: the positional values
`(getattr(instance, f.attname) for f in self.model._meta.fields)` used to
rebuild the live object. -/
def history_object_values {V : Type} (model_fields : List Field)
    (r : HistoricalRecord V) : List (Option V) :=
  model_fields.map (fun f => r.attrs.lookup f.attname)

/-- The single domain error of the library.
Modelled from the spec: the `exceptions` module (not among the sources)
defines the one error class `MultipleRegistrationsError` raised by
`HistoricalRecords.finalize`; the spec states "A single domain error is
raised when the same entity type is registered for tracking more than
once". -/
inductive DomainError where
  | multipleRegistrations (msg : String)
  deriving DecidableEq, Repr

/-- Registration state: the module-level `registered_models` dictionary
(keyed by `db_table`) and the set of models whose `_meta` carries
`simple_history_manager_attribute` (set at the end of `finalize`).  Models
are identified by their `db_table`; proxy models (which key
`registered_models` differently and reuse their parent's history model) are
outside this embedding. -/
structure RegState where
  registered_models : List String
  manager_attrs : List String
  deriving DecidableEq, Repr

/-- `models.py` `HistoricalRecords.finalize` for a non-proxy sender.
`hint_mismatch` is true when `self.cls` exists and is not the sender and the
inherit check fails (the silent early return for abstract bases);
on double registration it raises `MultipleRegistrationsError`; otherwise it
creates the history model (which enters the sender into
`registered_models`), connects the signal handlers and sets the manager
attribute. -/
def finalize (hint_mismatch : Bool) (db_table app_label object_name : String)
    (s : RegState) : Except DomainError RegState :=
  if hint_mismatch then Except.ok s
  else if s.manager_attrs.contains db_table then
    Except.error (DomainError.multipleRegistrations
      (app_label ++ "." ++ object_name ++
        " registered multiple times for history tracking."))
  else
    Except.ok
      { registered_models := db_table :: s.registered_models
        manager_attrs := db_table :: s.manager_attrs }

/-- `__init__.py` `register`: a no-op when the model's table is already in
`registered_models`; otherwise it builds a `HistoricalRecords` with
`cls = model` (so finalize's hint check passes), runs `finalize`, and enters
the model into `registered_models`. -/
def register (db_table app_label object_name : String) (s : RegState) :
    Except DomainError RegState :=
  if s.registered_models.contains db_table then Except.ok s
  else
    match finalize false db_table app_label object_name s with
    | Except.error e => Except.error e
    | Except.ok s =>
        Except.ok { s with registered_models := db_table :: s.registered_models }

/-! ## Hook events and runs -/

/-- One delivery of a host signal to the library's handlers. -/
inductive HookEvent (V : Type) where
  | postSave (inst : Instance V) (created raw : Bool) (clock : Nat)
      (threadUser : Option Nat)
  | preDelete (m2m : List (PreDeleteFieldData V)) (clock : Nat)
      (threadUser : Option Nat)
  | postDelete (inst : Instance V) (clock : Nat) (threadUser : Option Nat)
  | m2mChanged (through : Nat) (action : M2MAction)
      (rows : List (ThroughItem V)) (pk_set : Option (List Nat)) (clock : Nat)
      (threadUser : Option Nat)

/-- Dispatch one signal delivery to its handler. -/
def step {V : Type} (s : M2MState V) : HookEvent V → M2MState V
  | HookEvent.postSave inst created raw clock tu =>
      { s with table := post_save inst created raw clock tu s.table }
  | HookEvent.preDelete m2m clock tu =>
      { s with table := pre_delete m2m clock tu s.table }
  | HookEvent.postDelete inst clock tu =>
      { s with table := post_delete inst clock tu s.table }
  | HookEvent.m2mChanged through action rows pk_set clock tu =>
      m2m_changed through action rows pk_set clock tu s

/-- The initial state: an empty historical table, no stashed items. -/
def init_state (V : Type) : M2MState V :=
  { table := { rows := [], next_id := 0 }, pre_clear_items := none }

/-- Run a sequence of signal deliveries from the initial state. -/
def run {V : Type} (events : List (HookEvent V)) : M2MState V :=
  events.foldl step (init_state V)

/-! ## Specification helpers

`records_of` is the proof-side description of a run of consecutive
`create_historical_record` inserts; `table_extends` states that a table is an
extension (pure append) of another; `Mono` is the auto-increment invariant. -/

/-- The rows inserted by recording `l` in order with tag `ty`, when the
auto-increment counter starts at `start`. -/
def records_of {V : Type} (l : List (Instance V)) (ty : Char) (clock : Nat)
    (tu : Option Nat) (start : Nat) : List (HistoricalRecord V) :=
  match l with
  | [] => []
  | x :: xs => mk_record x ty clock tu start :: records_of xs ty clock tu (start + 1)

/-- `t'` extends `t`: every row of `t` is still present, unchanged and in
place, and only new rows follow. -/
def table_extends {V : Type} (t t' : HistoryTable V) : Prop :=
  ∃ added, t'.rows = t.rows ++ added

theorem table_extends_refl {V : Type} (t : HistoryTable V) : table_extends t t :=
  ⟨[], by simp⟩

theorem table_extends_trans {V : Type} {a b c : HistoryTable V}
    (h1 : table_extends a b) (h2 : table_extends b c) : table_extends a c := by
  obtain ⟨x, hx⟩ := h1
  obtain ⟨y, hy⟩ := h2
  exact ⟨x ++ y, by rw [hy, hx, List.append_assoc]⟩

theorem table_extends_create {V : Type} (i : Instance V) (ty : Char) (c : Nat)
    (u : Option Nat) (t : HistoryTable V) :
    table_extends t (create_historical_record i ty c u t) :=
  ⟨_, rfl⟩

theorem foldl_table_extends {V α : Type} {f : HistoryTable V → α → HistoryTable V}
    (hf : ∀ t a, table_extends t (f t a)) :
    ∀ (l : List α) (t : HistoryTable V), table_extends t (l.foldl f t) := by
  intro l
  induction l with
  | nil => intro t; exact table_extends_refl t
  | cons x xs ih => intro t; exact table_extends_trans (hf t x) (ih (f t x))

theorem post_save_extends {V : Type} (inst : Instance V) (created raw : Bool)
    (clock : Nat) (tu : Option Nat) (t : HistoryTable V) :
    table_extends t (post_save inst created raw clock tu t) := by
  unfold post_save
  split
  · exact table_extends_refl t
  · split
    · exact table_extends_refl t
    · exact table_extends_create _ _ _ _ _

theorem pre_delete_extends {V : Type} (m2m : List (PreDeleteFieldData V))
    (clock : Nat) (tu : Option Nat) (t : HistoryTable V) :
    table_extends t (pre_delete m2m clock tu t) := by
  unfold pre_delete
  refine foldl_table_extends (fun t d => ?_) m2m t
  dsimp only
  split
  · exact table_extends_trans
      (foldl_table_extends (fun t i => table_extends_create _ _ _ _ _) d.items t)
      (foldl_table_extends (fun t i => table_extends_create _ _ _ _ _) d.related _)
  · exact table_extends_refl t

theorem m2m_fold_extends {V : Type} (action : M2MAction) (clock : Nat)
    (tu : Option Nat) (l : List (ThroughItem V)) (t : HistoryTable V) :
    table_extends t (l.foldl (fun acc it =>
      match action with
      | M2MAction.post_add =>
          if it.item.skip_history_when_saving then acc
          else create_historical_record it.item '+' clock tu acc
      | M2MAction.pre_remove => create_historical_record it.item '-' clock tu acc
      | M2MAction.pre_clear => create_historical_record it.item '-' clock tu acc
      | M2MAction.other => acc) t) := by
  refine foldl_table_extends (fun t it => ?_) l t
  cases action
  · dsimp only
    split
    · exact table_extends_refl t
    · exact table_extends_create _ _ _ _ _
  · exact table_extends_create _ _ _ _ _
  · exact table_extends_create _ _ _ _ _
  · exact table_extends_refl t

theorem reconcile_fold_extends {V : Type} (through : Nat) (clock : Nat)
    (tu : Option Nat) (ref l : List (ThroughItem V)) (t : HistoryTable V) :
    table_extends t (l.foldl (fun acc it =>
      if has_m2m_field it.target through &&
          (ref.filter (fun i => it.target.pk = i.target.pk)).isEmpty
      then create_historical_record it.target '~' clock tu acc
      else acc) t) := by
  refine foldl_table_extends (fun t it => ?_) l t
  dsimp only
  split
  · exact table_extends_create _ _ _ _ _
  · exact table_extends_refl t

theorem m2m_changed_extends {V : Type} (through : Nat) (action : M2MAction)
    (rows : List (ThroughItem V)) (pk_set : Option (List Nat)) (clock : Nat)
    (tu : Option Nat) (s : M2MState V) :
    table_extends s.table (m2m_changed through action rows pk_set clock tu s).table := by
  unfold m2m_changed
  have h1 := m2m_fold_extends action clock tu (filter_items rows pk_set) s.table
  cases action
  · dsimp only
    cases s.pre_clear_items with
    | none => exact h1
    | some other_items =>
        exact table_extends_trans h1
          (table_extends_trans
            (reconcile_fold_extends through clock tu (filter_items rows pk_set)
              other_items _)
            (reconcile_fold_extends through clock tu other_items
              (filter_items rows pk_set) _))
  · exact h1
  · exact h1
  · exact h1

/-- The auto-increment invariant: row ids strictly increase left to right and
stay below the counter. -/
def Mono {V : Type} (t : HistoryTable V) : Prop :=
  t.rows.Pairwise (fun a b => a.history_id < b.history_id) ∧
    ∀ r ∈ t.rows, r.history_id < t.next_id

theorem mono_create {V : Type} (i : Instance V) (ty : Char) (c : Nat)
    (u : Option Nat) {t : HistoryTable V} (h : Mono t) :
    Mono (create_historical_record i ty c u t) := by
  obtain ⟨hp, hb⟩ := h
  constructor
  · show (t.rows ++ [mk_record i ty c u t.next_id]).Pairwise _
    rw [List.pairwise_append]
    refine ⟨hp, List.pairwise_singleton _ _, ?_⟩
    intro a ha b hbm
    rw [List.mem_singleton] at hbm
    subst hbm
    exact hb a ha
  · intro r hr
    rcases List.mem_append.mp hr with h | h
    · exact Nat.lt_succ_of_lt (hb r h)
    · rw [List.mem_singleton] at h
      subst h
      exact Nat.lt_succ_self _

theorem foldl_preserves_pred {α β : Type} (P : β → Prop) (f : β → α → β)
    (hf : ∀ b a, P b → P (f b a)) :
    ∀ (l : List α) (b : β), P b → P (l.foldl f b) := by
  intro l
  induction l with
  | nil => intro b hb; exact hb
  | cons x xs ih => intro b hb; exact ih (f b x) (hf b x hb)

theorem post_save_mono {V : Type} (inst : Instance V) (created raw : Bool)
    (clock : Nat) (tu : Option Nat) {t : HistoryTable V} (h : Mono t) :
    Mono (post_save inst created raw clock tu t) := by
  unfold post_save
  split
  · exact h
  · split
    · exact h
    · exact mono_create _ _ _ _ h

theorem pre_delete_mono {V : Type} (m2m : List (PreDeleteFieldData V))
    (clock : Nat) (tu : Option Nat) {t : HistoryTable V} (h : Mono t) :
    Mono (pre_delete m2m clock tu t) := by
  unfold pre_delete
  refine foldl_preserves_pred Mono _ (fun t d hd => ?_) m2m t h
  dsimp only
  split
  · exact foldl_preserves_pred Mono _ (fun t i hi => mono_create _ _ _ _ hi) _ _
      (foldl_preserves_pred Mono _ (fun t i hi => mono_create _ _ _ _ hi) _ _ hd)
  · exact hd

theorem m2m_changed_mono {V : Type} (through : Nat) (action : M2MAction)
    (rows : List (ThroughItem V)) (pk_set : Option (List Nat)) (clock : Nat)
    (tu : Option Nat) {s : M2MState V} (h : Mono s.table) :
    Mono (m2m_changed through action rows pk_set clock tu s).table := by
  unfold m2m_changed
  have h1 : Mono ((filter_items rows pk_set).foldl (fun acc it =>
      match action with
      | M2MAction.post_add =>
          if it.item.skip_history_when_saving then acc
          else create_historical_record it.item '+' clock tu acc
      | M2MAction.pre_remove => create_historical_record it.item '-' clock tu acc
      | M2MAction.pre_clear => create_historical_record it.item '-' clock tu acc
      | M2MAction.other => acc) s.table) := by
    refine foldl_preserves_pred Mono _ (fun t it ht => ?_) _ _ h
    cases action
    · dsimp only
      split
      · exact ht
      · exact mono_create _ _ _ _ ht
    · exact mono_create _ _ _ _ ht
    · exact mono_create _ _ _ _ ht
    · exact ht
  cases action
  · dsimp only
    cases s.pre_clear_items with
    | none => exact h1
    | some other_items =>
        refine foldl_preserves_pred Mono _ (fun t it ht => ?_) _ _ ?_
        · dsimp only
          split
          · exact mono_create _ _ _ _ ht
          · exact ht
        · refine foldl_preserves_pred Mono _ (fun t it ht => ?_) _ _ h1
          dsimp only
          split
          · exact mono_create _ _ _ _ ht
          · exact ht
  · exact h1
  · exact h1
  · exact h1

theorem step_mono {V : Type} {s : M2MState V} (e : HookEvent V)
    (h : Mono s.table) : Mono (step s e).table := by
  cases e with
  | postSave inst created raw clock tu => exact post_save_mono inst created raw clock tu h
  | preDelete m2m clock tu => exact pre_delete_mono m2m clock tu h
  | postDelete inst clock tu => exact mono_create _ _ _ _ h
  | m2mChanged through action rows pk_set clock tu =>
      exact m2m_changed_mono through action rows pk_set clock tu h

theorem run_mono {V : Type} (events : List (HookEvent V)) :
    Mono (run events).table := by
  unfold run
  refine foldl_preserves_pred (fun s => Mono s.table) _ (fun s e hs => step_mono e hs)
    events (init_state V) ?_
  exact ⟨List.Pairwise.nil, by intro r hr; cases hr⟩

/-- `copy_fields` keeps every field's column (`attname`) unchanged: the
foreign-key branch rebuilds the field under its old name, and
`transform_field` only renames `name` to `attname`. -/
theorem copy_one_field_attname (engine : String) (f : Field) :
    (copy_one_field engine f).attname = f.attname := by
  simp only [copy_one_field, transform_field]
  repeat' split
  all_goals rfl

/-- Looking a field's column up in an association list keyed by the columns
of a field list the field belongs to. -/
theorem lookup_map_attname {β : Type} (v : String → β) :
    ∀ (l : List Field) (f : Field), f ∈ l →
      (l.map (fun g => (g.attname, v g.attname))).lookup f.attname
        = some (v f.attname) := by
  intro l
  induction l with
  | nil => intro f hf; cases hf
  | cons g gs ih =>
      intro f hf
      by_cases h : f.attname = g.attname
      · simp [List.lookup, h]
      · have hne : (f.attname == g.attname) = false := by
          simp [h]
        have hmem : f ∈ gs := by
          rcases List.mem_cons.mp hf with h' | h'
          · exact absurd (congrArg Field.attname h') h
          · exact h'
        simp only [List.map_cons, List.lookup, hne]
        exact ih f hmem

/-! ## Sample data for witnesses -/

/-- A sample auto primary-key field. -/
def sample_field : Field :=
  { name := "id", attname := "id", kind := FieldKind.AutoField
    primary_key := true, unique := false, db_index := false, null := false
    blank := false, db_constraint := true, serialize := true, auto_now := false
    auto_now_add := false, max_length := none, on_delete := OnDelete.CASCADE }

/-- A sample foreign-key field. -/
def sample_fk_field : Field :=
  { name := "owner", attname := "owner_id", kind := FieldKind.ForeignKey
    primary_key := false, unique := true, db_index := false, null := false
    blank := false, db_constraint := true, serialize := true, auto_now := false
    auto_now_add := false, max_length := none, on_delete := OnDelete.CASCADE }

/-- A sample tracked instance (no skip marker, no attribute overrides). -/
def sample_instance : Instance Nat :=
  { pk := 1, fields := [sample_field, sample_fk_field], values := fun _ => 7
    many_to_many := [], skip_history_when_saving := false
    history_date_attr := none, history_user_attr := none }

/-- An empty historical table. -/
def empty_table : HistoryTable Nat := { rows := [], next_id := 0 }

/-! ## C1 -/

/-- C1: a create, update or delete delivered through the host's save/delete
signals (an ordinary, non-raw save of an instance not marked
`skip_history_when_saving`) inserts exactly one new snapshot row, tagged
`'+'` when the save created the row, `'~'` when it updated it, and `'-'` on
deletion. -/
theorem signal_snapshot_tags {V : Type} (inst : Instance V) (created : Bool)
    (clock : Nat) (tu : Option Nat) (t : HistoryTable V)
    (hskip : inst.skip_history_when_saving = false) :
    (∃ r, (post_save inst created false clock tu t).rows = t.rows ++ [r] ∧
        r.history_type = (if created then '+' else '~')) ∧
    (∃ r, (post_delete inst clock tu t).rows = t.rows ++ [r] ∧
        r.history_type = '-') := by
  refine ⟨⟨mk_record inst (if created then '+' else '~') clock tu t.next_id,
      ?_, rfl⟩,
    ⟨mk_record inst '-' clock tu t.next_id, rfl, rfl⟩⟩
  simp [post_save, hskip, create_historical_record]

/-- C1 at a concrete input. -/
theorem signal_snapshot_tags_witness :
    (∃ r, (post_save sample_instance true false 3 none empty_table).rows
        = empty_table.rows ++ [r] ∧ r.history_type = (if true then '+' else '~')) ∧
    (∃ r, (post_delete sample_instance 3 none empty_table).rows
        = empty_table.rows ++ [r] ∧ r.history_type = '-') :=
  signal_snapshot_tags sample_instance true 3 none empty_table rfl

/-! ## C5 -/

/-- C5: the historical table is append-only — every lifecycle hook
(post-save, pre-delete, post-delete, m2m-changed) leaves the existing rows
unchanged in place and only appends new ones. -/
theorem hooks_append_only {V : Type} (s : M2MState V) (e : HookEvent V) :
    ∃ added, (step s e).table.rows = s.table.rows ++ added := by
  cases e with
  | postSave inst created raw clock tu => exact post_save_extends inst created raw clock tu s.table
  | preDelete m2m clock tu => exact pre_delete_extends m2m clock tu s.table
  | postDelete inst clock tu => exact table_extends_create inst '-' clock tu s.table
  | m2mChanged through action rows pk_set clock tu =>
      exact m2m_changed_extends through action rows pk_set clock tu s

/-- C5 at a concrete input. -/
theorem hooks_append_only_witness :
    ∃ added,
      (step (init_state Nat) (HookEvent.postSave sample_instance true false 3 none)).table.rows
        = (init_state Nat).table.rows ++ added :=
  hooks_append_only (init_state Nat) (HookEvent.postSave sample_instance true false 3 none)

/-! ## C7 -/

/-- C7: a foreign-key field copied onto the historical model is loosely
constrained: no database constraint, `on_delete=DO_NOTHING` (deleting the
referenced row does nothing to the snapshot), nullable, non-unique, not a
primary key, and indexed. -/
theorem foreign_key_copy_loose (engine : String) (f : Field)
    (hfk : f.isForeignKey = true) :
    (copy_one_field engine f).db_constraint = false ∧
    (copy_one_field engine f).on_delete = OnDelete.DO_NOTHING ∧
    (copy_one_field engine f).null = true ∧
    (copy_one_field engine f).unique = false ∧
    (copy_one_field engine f).primary_key = false ∧
    (copy_one_field engine f).db_index = true := by
  have hord : ¬f.kind = FieldKind.OrderWrt := by
    intro h
    rw [Field.isForeignKey, h] at hfk
    simp at hfk
  simp [copy_one_field, hord, hfk]

/-- C7 at a concrete input. -/
theorem foreign_key_copy_loose_witness :
    (copy_one_field "default" sample_fk_field).db_constraint = false ∧
    (copy_one_field "default" sample_fk_field).on_delete = OnDelete.DO_NOTHING ∧
    (copy_one_field "default" sample_fk_field).null = true ∧
    (copy_one_field "default" sample_fk_field).unique = false ∧
    (copy_one_field "default" sample_fk_field).primary_key = false ∧
    (copy_one_field "default" sample_fk_field).db_index = true :=
  foreign_key_copy_loose "default" sample_fk_field rfl

/-! ## C9 -/

/-- C9: `save_without_historical_record` suppresses the snapshot only for an
updating save; a creating save still records a `'+'` row; and the skip
marker is gone after the call even when `self.save` raises, so later
ordinary saves record history again. -/
theorem save_without_record_frame {V : Type} (inst : Instance V)
    (saveRaises : Bool) (clock : Nat) (tu : Option Nat) (t : HistoryTable V) :
    (∃ r, (save_without_historical_record inst true false false clock tu t).2.rows
        = t.rows ++ [r] ∧ r.history_type = '+') ∧
    ((save_without_historical_record inst false false false clock tu t).2 = t) ∧
    (∀ created raw,
      (save_without_historical_record inst created raw saveRaises clock tu
        t).1.skip_history_when_saving = false) := by
  refine ⟨⟨mk_record { inst with skip_history_when_saving := true } '+' clock tu
      t.next_id, ?_, rfl⟩, ?_, fun created raw => rfl⟩
  · simp [save_without_historical_record, post_save, create_historical_record]
  · simp [save_without_historical_record, post_save]

/-- C9 at a concrete input (with a raising save for the marker clause). -/
theorem save_without_record_frame_witness :
    (∃ r, (save_without_historical_record sample_instance true false false 3 none
        empty_table).2.rows = empty_table.rows ++ [r] ∧ r.history_type = '+') ∧
    ((save_without_historical_record sample_instance false false false 3 none
        empty_table).2 = empty_table) ∧
    (∀ created raw,
      (save_without_historical_record sample_instance created raw true 3 none
        empty_table).1.skip_history_when_saving = false) :=
  save_without_record_frame sample_instance true 3 none empty_table

/-! ## C2 -/

/-- C2: every snapshot row carries a copy of every field of the tracked
model — same column, holding the value the instance had at recording time —
and the historical model adds exactly the four bookkeeping fields:
`history_id` (identifier), `history_date` (timestamp), `history_user`
(nullable acting user) and `history_type` (a `max_length=1` change-kind
tag). -/
theorem snapshot_field_copies {V : Type} (engine : String)
    (model_fields : List Field) (inst : Instance V) (ty : Char) (clock : Nat)
    (tu : Option Nat) (t : HistoryTable V) :
    (∀ f ∈ model_fields, ∃ cf, (cf.name, cf) ∈ history_model_fields engine model_fields ∧
        cf.attname = f.attname) ∧
    (∃ r, (create_historical_record inst ty clock tu t).rows = t.rows ++ [r] ∧
        ∀ f ∈ inst.fields, r.attrs.lookup f.attname = some (inst.values f.attname)) ∧
    ((history_model_fields engine model_fields).map Prod.fst
      = (copy_fields engine model_fields).map Prod.fst
        ++ ["history_id", "history_date", "history_user", "history_type"]) ∧
    (history_id_field.kind = FieldKind.AutoField ∧
     history_date_field.kind = FieldKind.DateTimeField ∧
     history_user_field.null = true ∧
     history_type_field.kind = FieldKind.CharField ∧
     history_type_field.max_length = some 1 ∧
     history_type_choices.map Prod.fst = ['+', '~', '-']) := by
  refine ⟨?_, ?_, ?_, rfl, rfl, rfl, rfl, rfl, rfl⟩
  · intro f hf
    refine ⟨copy_one_field engine f, ?_, copy_one_field_attname engine f⟩
    unfold history_model_fields copy_fields
    apply List.mem_append_left
    exact List.mem_map.mpr ⟨f, hf, rfl⟩
  · refine ⟨mk_record inst ty clock tu t.next_id, rfl, ?_⟩
    intro f hf
    exact lookup_map_attname (fun a => inst.values a) inst.fields f hf
  · unfold history_model_fields
    rw [List.map_append]
    rfl

/-- C2 at a concrete input. -/
theorem snapshot_field_copies_witness :
    (∀ f ∈ [sample_field, sample_fk_field], ∃ cf,
        (cf.name, cf) ∈ history_model_fields "default" [sample_field, sample_fk_field] ∧
        cf.attname = f.attname) ∧
    (∃ r, (create_historical_record sample_instance '+' 3 none empty_table).rows
        = empty_table.rows ++ [r] ∧
        ∀ f ∈ sample_instance.fields,
          r.attrs.lookup f.attname = some (sample_instance.values f.attname)) ∧
    ((history_model_fields "default" [sample_field, sample_fk_field]).map Prod.fst
      = (copy_fields "default" [sample_field, sample_fk_field]).map Prod.fst
        ++ ["history_id", "history_date", "history_user", "history_type"]) ∧
    (history_id_field.kind = FieldKind.AutoField ∧
     history_date_field.kind = FieldKind.DateTimeField ∧
     history_user_field.null = true ∧
     history_type_field.kind = FieldKind.CharField ∧
     history_type_field.max_length = some 1 ∧
     history_type_choices.map Prod.fst = ['+', '~', '-']) :=
  snapshot_field_copies "default" [sample_field, sample_fk_field]
    sample_instance '+' 3 none empty_table

/-! ## C6 -/

/-- Host-framework semantics of a Meta `ordering` option for the historical
model's two bookkeeping keys: compare lexicographically, a `-` prefix
ordering by the negated key (descending). -/
def ordering_key {V : Type} (r : HistoricalRecord V) (spec : String) : Int :=
  if spec = "-history_date" then -(r.history_date : Int)
  else if spec = "history_date" then (r.history_date : Int)
  else if spec = "-history_id" then -(r.history_id : Int)
  else if spec = "history_id" then (r.history_id : Int)
  else 0

/-- `r1` sorts strictly before `r2` under an `ordering` list. -/
def sorts_before {V : Type} (r1 r2 : HistoricalRecord V) :
    List String → Bool
  | [] => false
  | spec :: rest =>
      if ordering_key r1 spec < ordering_key r2 spec then true
      else if ordering_key r1 spec = ordering_key r2 spec then
        sorts_before r1 r2 rest
      else false

/-- C6: the historical model's default ordering is
`('-history_date', '-history_id')` — descending timestamp with descending
identifier as tie-breaker — so a snapshot recorded later (larger id, no
earlier timestamp) sorts before an earlier one. -/
theorem ordering_newest_first {V : Type} (usn : Option String) (mvn : String)
    (r1 r2 : HistoricalRecord V) (hid : r1.history_id < r2.history_id)
    (hdate : r1.history_date ≤ r2.history_date) :
    (get_meta_options usn mvn).ordering = ["-history_date", "-history_id"] ∧
    sorts_before r2 r1 (get_meta_options usn mvn).ordering = true := by
  refine ⟨rfl, ?_⟩
  have hord : (get_meta_options usn mvn).ordering
      = ["-history_date", "-history_id"] := rfl
  rw [hord]
  have hkd : ∀ r : HistoricalRecord V,
      ordering_key r "-history_date" = -(r.history_date : Int) := by
    intro r
    rw [ordering_key, if_pos rfl]
  have hki : ∀ r : HistoricalRecord V,
      ordering_key r "-history_id" = -(r.history_id : Int) := by
    intro r
    rw [ordering_key, if_neg (by decide), if_neg (by decide), if_pos rfl]
  rcases Nat.lt_or_ge r1.history_date r2.history_date with hlt | hge
  · have hk : ordering_key r2 "-history_date" < ordering_key r1 "-history_date" := by
      rw [hkd, hkd]
      omega
    simp [sorts_before, hk]
  · have heq : r1.history_date = r2.history_date := Nat.le_antisymm hdate hge
    have h1 : ordering_key r2 "-history_date" = ordering_key r1 "-history_date" := by
      rw [hkd, hkd]
      omega
    have h2 : ordering_key r2 "-history_id" < ordering_key r1 "-history_id" := by
      rw [hki, hki]
      omega
    simp [sorts_before, h1, h2]

/-- C6 at a concrete input. -/
theorem ordering_newest_first_witness :
    (get_meta_options none "poll").ordering = ["-history_date", "-history_id"] ∧
    sorts_before
      (⟨1, 5, none, '~', []⟩ : HistoricalRecord Nat)
      (⟨0, 5, none, '+', []⟩ : HistoricalRecord Nat)
      (get_meta_options none "poll").ordering = true :=
  ordering_newest_first none "poll" ⟨0, 5, none, '+', []⟩ ⟨1, 5, none, '~', []⟩
    (by decide) (by decide)

/-! ## C10 -/

/-- C10: recording then reconstructing is the identity on tracked fields:
the `instance` property (`get_instance`) and the `history_object` descriptor
rebuild, from a snapshot taken by `create_historical_record`, an object that
agrees with the original instance on every copied field. -/
theorem snapshot_roundtrip {V : Type} (engine : String) (inst : Instance V)
    (ty : Char) (clock : Nat) (tu : Option Nat) (t : HistoryTable V) :
    ∃ r, (create_historical_record inst ty clock tu t).rows = t.rows ++ [r] ∧
      (∀ f ∈ inst.fields,
        (get_instance (copy_fields engine inst.fields) r).lookup f.attname
          = some (some (inst.values f.attname))) ∧
      history_object_values inst.fields r
        = inst.fields.map (fun f => some (inst.values f.attname)) := by
  refine ⟨mk_record inst ty clock tu t.next_id, rfl, ?_, ?_⟩
  · intro f hf
    have hget : get_instance (copy_fields engine inst.fields)
        (mk_record inst ty clock tu t.next_id)
        = inst.fields.map (fun g => (g.attname,
            (mk_record inst ty clock tu t.next_id).attrs.lookup g.attname)) := by
      unfold get_instance copy_fields
      rw [List.map_map]
      apply List.map_congr_left
      intro g _
      simp [copy_one_field_attname]
    rw [hget]
    have := lookup_map_attname
      (fun a => (mk_record inst ty clock tu t.next_id).attrs.lookup a)
      inst.fields f hf
    rw [this]
    have hinner : (mk_record inst ty clock tu t.next_id).attrs.lookup f.attname
        = some (inst.values f.attname) :=
      lookup_map_attname (fun a => inst.values a) inst.fields f hf
    exact congrArg some hinner
  · unfold history_object_values
    apply List.map_congr_left
    intro f hf
    exact lookup_map_attname (fun a => inst.values a) inst.fields f hf

/-- C10 at a concrete input. -/
theorem snapshot_roundtrip_witness :
    ∃ r, (create_historical_record sample_instance '~' 4 none empty_table).rows
        = empty_table.rows ++ [r] ∧
      (∀ f ∈ sample_instance.fields,
        (get_instance (copy_fields "default" sample_instance.fields) r).lookup f.attname
          = some (some (sample_instance.values f.attname))) ∧
      history_object_values sample_instance.fields r
        = sample_instance.fields.map (fun f => some (sample_instance.values f.attname)) :=
  snapshot_roundtrip "default" sample_instance '~' 4 none empty_table

/-! ## C3 -/

/-- C3 counterexample: a second registration through the `register` entry
point does not raise — `register` is a silent no-op once the model's table
is in `registered_models`.  The first call from an empty state succeeds and
yields the registered state; the second call returns it unchanged with no
error. -/
theorem register_twice_silent :
    register "app_poll" "app" "Poll" { registered_models := [], manager_attrs := [] }
      = Except.ok { registered_models := ["app_poll", "app_poll"],
                    manager_attrs := ["app_poll"] } ∧
    register "app_poll" "app" "Poll"
        { registered_models := ["app_poll", "app_poll"], manager_attrs := ["app_poll"] }
      = Except.ok { registered_models := ["app_poll", "app_poll"],
                    manager_attrs := ["app_poll"] } :=
  ⟨rfl, rfl⟩

/-- C3 (amended): finalizing history tracking a second time for an entity
that already carries the history manager attribute raises the
multiple-registration error; the `register` entry point instead silently
skips a model whose table is already registered; and every domain error any
registration operation can raise is the multiple-registration error. -/
theorem multiple_registration_error (s : RegState) (db app nm : String)
    (hreg : s.manager_attrs.contains db = true) :
    (finalize false db app nm s
      = Except.error (DomainError.multipleRegistrations
          (app ++ "." ++ nm ++ " registered multiple times for history tracking."))) ∧
    (s.registered_models.contains db = true → register db app nm s = Except.ok s) ∧
    (∀ (hm : Bool) (db2 app2 nm2 : String) (s2 : RegState) (e : DomainError),
      finalize hm db2 app2 nm2 s2 = Except.error e →
        ∃ msg, e = DomainError.multipleRegistrations msg) ∧
    (∀ (db2 app2 nm2 : String) (s2 : RegState) (e : DomainError),
      register db2 app2 nm2 s2 = Except.error e →
        ∃ msg, e = DomainError.multipleRegistrations msg) := by
  refine ⟨?_, ?_, ?_, ?_⟩
  · have hreg' : db ∈ s.manager_attrs := by simpa using hreg
    simp [finalize, hreg']
  · intro hmem
    have hmem' : db ∈ s.registered_models := by simpa using hmem
    simp [register, hmem']
  · intro hm db2 app2 nm2 s2 e he
    cases e with
    | multipleRegistrations msg => exact ⟨msg, rfl⟩
  · intro db2 app2 nm2 s2 e he
    cases e with
    | multipleRegistrations msg => exact ⟨msg, rfl⟩

/-- C3 (amended) at a concrete input. -/
theorem multiple_registration_error_witness :
    (finalize false "app_poll" "app" "Poll"
        { registered_models := ["app_poll"], manager_attrs := ["app_poll"] }
      = Except.error (DomainError.multipleRegistrations
          ("app" ++ "." ++ "Poll" ++ " registered multiple times for history tracking."))) ∧
    ({ registered_models := ["app_poll"],
       manager_attrs := ["app_poll"] : RegState }.registered_models.contains "app_poll" = true →
      register "app_poll" "app" "Poll"
        { registered_models := ["app_poll"], manager_attrs := ["app_poll"] }
      = Except.ok { registered_models := ["app_poll"], manager_attrs := ["app_poll"] }) ∧
    (∀ (hm : Bool) (db2 app2 nm2 : String) (s2 : RegState) (e : DomainError),
      finalize hm db2 app2 nm2 s2 = Except.error e →
        ∃ msg, e = DomainError.multipleRegistrations msg) ∧
    (∀ (db2 app2 nm2 : String) (s2 : RegState) (e : DomainError),
      register db2 app2 nm2 s2 = Except.error e →
        ∃ msg, e = DomainError.multipleRegistrations msg) :=
  multiple_registration_error
    { registered_models := ["app_poll"], manager_attrs := ["app_poll"] }
    "app_poll" "app" "Poll" (by decide)

/-! ## C8 -/

/-- C8: the snapshot identifier is strictly monotonically increasing — over
any sequence of signal deliveries from an empty table, rows appear in
strictly increasing `history_id` order (the table is append-only, so a
later-written row sits further right), and `history_id` is the
auto-incrementing primary key of the historical model. -/
theorem history_id_strictly_increasing {V : Type} (events : List (HookEvent V)) :
    ((run events).table.rows.map (fun r => r.history_id)).Pairwise (· < ·) ∧
    history_id_field.kind = FieldKind.AutoField ∧
    history_id_field.primary_key = true := by
  refine ⟨?_, rfl, rfl⟩
  rw [List.pairwise_map]
  exact (run_mono events).1

/-- C8 at a concrete input. -/
theorem history_id_strictly_increasing_witness :
    ((run [HookEvent.postSave sample_instance true false 3 none,
           HookEvent.postSave sample_instance false false 4 none,
           HookEvent.postDelete sample_instance 5 none]).table.rows.map
        (fun r => r.history_id)).Pairwise (· < ·) ∧
    history_id_field.kind = FieldKind.AutoField ∧
    history_id_field.primary_key = true :=
  history_id_strictly_increasing
    [HookEvent.postSave sample_instance true false 3 none,
     HookEvent.postSave sample_instance false false 4 none,
     HookEvent.postDelete sample_instance 5 none]

/-! ## C4 -/

/-- The through rows recorded with `'+'` by the `post_add` loop: the items
not marked `skip_history_when_saving`. -/
def skip_filtered {V : Type} (items : List (ThroughItem V)) : List (Instance V) :=
  (items.filter (fun it => !it.item.skip_history_when_saving)).map (fun it => it.item)

/-- Targets recorded by the first reconciliation loop of `m2m_changed`:
stashed (pre-clear) rows whose target has the m2m field and matches no
current item. -/
def stale_targets {V : Type} (through : Nat) (old items : List (ThroughItem V)) :
    List (Instance V) :=
  (old.filter (fun it => has_m2m_field it.target through &&
      (items.filter (fun i => it.target.pk = i.target.pk)).isEmpty)).map
    (fun it => it.target)

/-- Targets recorded by the second reconciliation loop of `m2m_changed`:
current items whose target has the m2m field and matches no stashed row. -/
def fresh_targets {V : Type} (through : Nat) (old items : List (ThroughItem V)) :
    List (Instance V) :=
  (items.filter (fun it => has_m2m_field it.target through &&
      (old.filter (fun i => it.target.pk = i.target.pk)).isEmpty)).map
    (fun it => it.target)

theorem fold_plus_eq {V : Type} (clock : Nat) (tu : Option Nat) :
    ∀ (l : List (ThroughItem V)) (t : HistoryTable V),
      l.foldl (fun acc it =>
          if it.item.skip_history_when_saving then acc
          else create_historical_record it.item '+' clock tu acc) t
        = { rows := t.rows ++ records_of (skip_filtered l) '+' clock tu t.next_id
            next_id := t.next_id + (skip_filtered l).length } := by
  intro l
  induction l with
  | nil => intro t; simp [skip_filtered, records_of]
  | cons x xs ih =>
      intro t
      by_cases hx : x.item.skip_history_when_saving
      · rw [List.foldl_cons, if_pos hx, ih]
        have hf : skip_filtered (x :: xs) = skip_filtered xs := by
          simp [skip_filtered, List.filter_cons, hx]
        rw [hf]
      · rw [List.foldl_cons, if_neg hx, ih]
        have hf : skip_filtered (x :: xs) = x.item :: skip_filtered xs := by
          simp [skip_filtered, List.filter_cons, hx]
        rw [hf]
        simp [create_historical_record, records_of, HistoryTable.mk.injEq]
        omega

theorem fold_reconcile_eq {V : Type} (through : Nat) (clock : Nat)
    (tu : Option Nat) (ref : List (ThroughItem V)) :
    ∀ (l : List (ThroughItem V)) (t : HistoryTable V),
      l.foldl (fun acc it =>
          if has_m2m_field it.target through &&
              (ref.filter (fun i => it.target.pk = i.target.pk)).isEmpty
          then create_historical_record it.target '~' clock tu acc
          else acc) t
        = { rows := t.rows ++ records_of (stale_targets through l ref) '~' clock tu t.next_id
            next_id := t.next_id + (stale_targets through l ref).length } := by
  intro l
  induction l with
  | nil => intro t; simp [stale_targets, records_of]
  | cons x xs ih =>
      intro t
      by_cases hx : (has_m2m_field x.target through &&
          (ref.filter (fun i => x.target.pk = i.target.pk)).isEmpty) = true
      · rw [List.foldl_cons, if_pos hx, ih]
        have hf : stale_targets through (x :: xs) ref
            = x.target :: stale_targets through xs ref := by
          simp only [stale_targets, List.filter_cons, hx, if_pos, List.map_cons]
        rw [hf]
        simp [create_historical_record, records_of, HistoryTable.mk.injEq]
        omega
      · rw [List.foldl_cons, if_neg hx, ih]
        have hf : stale_targets through (x :: xs) ref = stale_targets through xs ref := by
          simp only [stale_targets, List.filter_cons]
          rw [if_neg hx]
        rw [hf]

/-- The two reconciliation loops use the same code with the roles of the
stash and the current items swapped. -/
theorem fresh_targets_eq_stale {V : Type} (through : Nat)
    (old items : List (ThroughItem V)) :
    fresh_targets through old items = stale_targets through items old := rfl

/-- The table produced by `post_add` reconciliation against a stash `old`
with filtered current items `items`: the `'+'` rows, then the stale-target
`'~'` rows, then the fresh-target `'~'` rows, appended in order. -/
def post_add_result {V : Type} (through : Nat) (old items : List (ThroughItem V))
    (clock : Nat) (tu : Option Nat) (t : HistoryTable V) : HistoryTable V :=
  { rows := t.rows
      ++ records_of (skip_filtered items) '+' clock tu t.next_id
      ++ records_of (stale_targets through old items) '~' clock tu
          (t.next_id + (skip_filtered items).length)
      ++ records_of (fresh_targets through old items) '~' clock tu
          (t.next_id + (skip_filtered items).length
            + (stale_targets through old items).length)
    next_id := t.next_id + (skip_filtered items).length
      + (stale_targets through old items).length
      + (fresh_targets through old items).length }

/-- The full effect of `m2m_changed` on `post_add` when a `pre_clear` stash
is present: `'+'` rows for the non-skipped current items, then `'~'` rows
for the stale targets (cleared, not re-added), then `'~'` rows for the fresh
targets (added, not previously members); the stash is removed. -/
theorem m2m_post_add_eq {V : Type} (through : Nat) (rows : List (ThroughItem V))
    (pk_set : Option (List Nat)) (clock : Nat) (tu : Option Nat)
    (t : HistoryTable V) (old : List (ThroughItem V)) :
    m2m_changed through M2MAction.post_add rows pk_set clock tu
        { table := t, pre_clear_items := some old }
      = { table := post_add_result through old (filter_items rows pk_set) clock tu t
          pre_clear_items := none } := by
  simp only [m2m_changed, post_add_result]
  rw [fold_plus_eq clock tu (filter_items rows pk_set) t]
  rw [fold_reconcile_eq through clock tu (filter_items rows pk_set) old]
  rw [fold_reconcile_eq through clock tu old (filter_items rows pk_set)]
  rw [fresh_targets_eq_stale]

/-- Which primary keys receive a stale-target `'~'` record: exactly the old
members not among the current items — provided every stashed target has the
m2m field. -/
theorem mem_stale_targets_pk {V : Type} (through : Nat)
    (old items : List (ThroughItem V))
    (hm : ∀ it ∈ old, has_m2m_field it.target through = true) (p : Nat) :
    p ∈ (stale_targets through old items).map (fun i => i.pk)
      ↔ (p ∈ old.map (fun it => it.target.pk) ∧
         p ∉ items.map (fun it => it.target.pk)) := by
  simp only [stale_targets, List.map_map, List.mem_map, List.mem_filter,
    Bool.and_eq_true, List.isEmpty_iff, List.filter_eq_nil_iff,
    decide_eq_true_eq, Function.comp]
  constructor
  · rintro ⟨it, ⟨hit, _, hno⟩, rfl⟩
    refine ⟨⟨it, hit, rfl⟩, ?_⟩
    rintro ⟨i, hi, hip⟩
    exact hno i hi hip.symm
  · rintro ⟨⟨it, hit, hp⟩, hnot⟩
    refine ⟨it, ⟨hit, hm it hit, ?_⟩, hp⟩
    intro i hi hip
    exact hnot ⟨i, hi, by rw [← hip, hp]⟩

/-- C4 (amended): after a pre-clear followed by a post-add bulk mutation,
the reconciliation emits `'~'` records exactly for the related rows in the
symmetric difference of the old and the new membership *whose own model has
the m2m field through this relationship* (the `has_m2m_field` guard); rows
present in both memberships get none.  Concretely: `pre_clear` stashes the
old membership; `post_add` appends the `'+'` rows, then `'~'` rows for
precisely the stale and fresh targets; when every affected target has the
m2m field, a pk receives a reconciliation `'~'` record iff it lies in the
symmetric difference of the old and the filtered new membership. -/
theorem m2m_clear_add_reconciliation {V : Type} (through : Nat)
    (old_rows rows : List (ThroughItem V)) (pk_set : Option (List Nat))
    (clock : Nat) (tu : Option Nat) (t0 t : HistoryTable V)
    (old : List (ThroughItem V))
    (hm : ∀ it ∈ old ++ filter_items rows pk_set,
      has_m2m_field it.target through = true) :
    ((m2m_changed through M2MAction.pre_clear old_rows none clock tu
        { table := t0, pre_clear_items := none }).pre_clear_items = some old_rows) ∧
    (m2m_changed through M2MAction.post_add rows pk_set clock tu
        { table := t, pre_clear_items := some old }
      = { table := post_add_result through old (filter_items rows pk_set) clock tu t
          pre_clear_items := none }) ∧
    (∀ p : Nat,
      p ∈ (stale_targets through old (filter_items rows pk_set)
            ++ fresh_targets through old (filter_items rows pk_set)).map (fun i => i.pk)
        ↔ ((p ∈ old.map (fun it => it.target.pk) ∧
            p ∉ (filter_items rows pk_set).map (fun it => it.target.pk)) ∨
           (p ∈ (filter_items rows pk_set).map (fun it => it.target.pk) ∧
            p ∉ old.map (fun it => it.target.pk)))) := by
  have hmo : ∀ it ∈ old, has_m2m_field it.target through = true := by
    intro it hit
    exact hm it (List.mem_append_left _ hit)
  have hmi : ∀ it ∈ filter_items rows pk_set, has_m2m_field it.target through = true := by
    intro it hit
    exact hm it (List.mem_append_right _ hit)
  refine ⟨rfl, m2m_post_add_eq through rows pk_set clock tu t old, ?_⟩
  intro p
  rw [List.map_append, List.mem_append]
  rw [mem_stale_targets_pk through old (filter_items rows pk_set) hmo p]
  rw [fresh_targets_eq_stale]
  rw [mem_stale_targets_pk through (filter_items rows pk_set) old hmi p]

/-- A related row (pk 1) whose model has no m2m field through through-model
`7` — as with the target side of a forward m2m mutation. -/
def target_a : Instance Nat :=
  { pk := 1, fields := [sample_field], values := fun _ => 1
    many_to_many := [], skip_history_when_saving := false
    history_date_attr := none, history_user_attr := none }

/-- A related row (pk 2) whose model has the m2m field through `7`. -/
def target_b : Instance Nat :=
  { pk := 2, fields := [sample_field], values := fun _ => 2
    many_to_many := [7], skip_history_when_saving := false
    history_date_attr := none, history_user_attr := none }

/-- The through row joining the source to `target_a`. -/
def item_a : Instance Nat :=
  { pk := 10, fields := [sample_field], values := fun _ => 10
    many_to_many := [], skip_history_when_saving := false
    history_date_attr := none, history_user_attr := none }

/-- The through row joining the source to `target_b`. -/
def item_b : Instance Nat :=
  { pk := 20, fields := [sample_field], values := fun _ => 20
    many_to_many := [], skip_history_when_saving := false
    history_date_attr := none, history_user_attr := none }

/-- The pre-clear membership: one through row, target pk 1. -/
def through_row_a : ThroughItem Nat := { item := item_a, target := target_a }

/-- The post-add membership: one through row, target pk 2. -/
def through_row_b : ThroughItem Nat := { item := item_b, target := target_b }

/-- C4 counterexample: pre-clear with membership `{pk 1}` (whose target's
model lacks the m2m field through the relationship), then post-add of
`{pk 2}`.  The symmetric difference is `{1, 2}`: pk 1 was removed by the
clear and not re-added, so the claim demands a `'~'` record for it.  The
code instead emits rows `'-'` (through row 10), `'+'` (through row 20) and a
single `'~'` — for pk 2 only; no `'~'` record for pk 1 exists. -/
theorem m2m_symmdiff_counterexample :
    (target_a.pk ∈ [through_row_a].map (fun it => it.target.pk) ∧
     target_a.pk ∉ (filter_items [through_row_b] (some [2])).map
        (fun it => it.target.pk)) ∧
    ((m2m_changed 7 M2MAction.post_add [through_row_b] (some [2]) 0 none
        (m2m_changed 7 M2MAction.pre_clear [through_row_a] none 0 none
          (init_state Nat))).table.rows.map
        (fun r => (r.history_type, r.attrs.lookup "id"))
      = [('-', some 10), ('+', some 20), ('~', some 2)]) ∧
    (∀ r ∈ (m2m_changed 7 M2MAction.post_add [through_row_b] (some [2]) 0 none
        (m2m_changed 7 M2MAction.pre_clear [through_row_a] none 0 none
          (init_state Nat))).table.rows,
      ¬(r.history_type = '~' ∧ r.attrs.lookup "id" = some 1)) :=
  ⟨by decide, rfl, by decide⟩

/-- A stashed through row whose target also has the m2m field. -/
def through_row_ab : ThroughItem Nat := { item := item_a, target := target_b }

/-- C4 (amended) at a concrete input: both targets have the m2m field. -/
theorem m2m_clear_add_reconciliation_witness :
    ((m2m_changed 7 M2MAction.pre_clear [through_row_a] none 0 none
        { table := empty_table, pre_clear_items := none }).pre_clear_items
      = some [through_row_a]) ∧
    (m2m_changed 7 M2MAction.post_add [through_row_b] (some [2]) 0 none
        { table := empty_table, pre_clear_items := some [through_row_ab] }
      = { table := post_add_result 7 [through_row_ab]
            (filter_items [through_row_b] (some [2])) 0 none empty_table
          pre_clear_items := none }) ∧
    (∀ p : Nat,
      p ∈ (stale_targets 7 [through_row_ab]
            (filter_items [through_row_b] (some [2]))
            ++ fresh_targets 7 [through_row_ab]
            (filter_items [through_row_b] (some [2]))).map (fun i => i.pk)
        ↔ ((p ∈ [through_row_ab].map (fun it => it.target.pk) ∧
            p ∉ (filter_items [through_row_b] (some [2])).map (fun it => it.target.pk)) ∨
           (p ∈ (filter_items [through_row_b] (some [2])).map (fun it => it.target.pk) ∧
            p ∉ [through_row_ab].map (fun it => it.target.pk)))) :=
  m2m_clear_add_reconciliation 7 [through_row_a] [through_row_b] (some [2]) 0 none
    empty_table empty_table [through_row_ab] (by decide)

end SimpleHistory
